/-
Verification development for the afilecache repository (src/src/afilecache.c,
with the near-duplicate copy src/unnamed/part_000).

Modelling conventions:
- C strings are lists of byte values (`List Nat`, each element in 1..255;
  a C string never contains the NUL byte 0).
- The build target of the repository is Linux (sys/file.h, flock), where
  `char` is signed (x86-64 SysV ABI) and `unsigned long` is 64 bits (LP64).
  Both facts matter below: in encode_id the test `ch < ' '` on a signed char
  is true for every byte value at or above 128, and `(unsigned)ch`
  sign-extends such a byte to 2^32 - 256 + b; in get_subdir_for_id the
  accumulator wraps modulo 2^64.
- The filesystem is modelled as an association list from paths to file
  contents; directories appear only through the stat/mkdir outcomes carried
  by the environment records, since every claim below is about file content
  at specific paths.
-/
import Mathlib

namespace Afilecache

/-! ## Byte-level helpers for encode_id (src/src/afilecache.c lines 181-207) -/

/-- ASCII decimal digits of `n`, most significant first (each digit as its
ASCII code `48 + d`).  The fuel argument mirrors the bounded work `snprintf`
does when formatting a 32-bit `unsigned` with `%u`: such a value has at most
10 digits, so fuel 11 is never exhausted for any value this file feeds in. -/
def decDigitsAux : Nat → Nat → List Nat
  | 0, _ => []
  | fuel + 1, n => if n < 10 then [48 + n] else decDigitsAux fuel (n / 10) ++ [48 + n % 10]

def decDigits (n : Nat) : List Nat := decDigitsAux 11 n

/-- The reserved characters of encode_id: `* ? / \ " ' %`
(byte values 42 63 47 92 34 39 37). -/
def reservedByte (b : Nat) : Bool :=
  (b == 42) || (b == 63) || (b == 47) || (b == 92) || (b == 34) || (b == 39) || (b == 37)

/-- The escape condition of encode_id:
`ch < ' ' || ch == '*' || ch == '?' || ch == '/' || ch == '\\' || ch == '"' || ch == '\'' || ch == '%'`.
`ch` is a (signed) `char`, so `ch < ' '` holds exactly when the byte value is
below 32 or at least 128 (the latter values are negative as signed char). -/
def isEscapedChar (b : Nat) : Bool :=
  decide (b < 32) || decide (128 ≤ b) || reservedByte b

/-- The value `(unsigned)ch` that encode_id formats: for a byte below 128 it
is the byte itself; for a byte at or above 128 the signed char is negative
and converting it to 32-bit `unsigned` yields `2^32 - 256 + b`. -/
def cUnsignedOfByte (b : Nat) : Nat :=
  if b < 128 then b else 4294967040 + b

/-- The escape sequence produced by `snprintf(esc, 5, "%%%u", (unsigned)ch)`:
a percent sign (byte 37) followed by the decimal digits of the value, with
the whole string truncated by snprintf to at most 4 characters (size 5
includes the terminating NUL). -/
def cEscape (b : Nat) : List Nat :=
  (37 :: decDigits (cUnsignedOfByte b)).take 4

/-- One step of the encode_id loop: the byte is either escaped or passed
through unchanged. -/
def encByte (b : Nat) : List Nat :=
  if isEscapedChar b then cEscape b else [b]

/-- encode_id (src/src/afilecache.c lines 181-207): scan the identifier byte
by byte, escaping control and reserved characters. -/
def encode_id : List Nat → List Nat
  | [] => []
  | b :: rest => encByte b ++ encode_id rest

/-! ## get_subdir_for_id (src/src/afilecache.c lines 209-232) -/

/-- The accumulator loop of get_subdir_for_id:
`s = (s << 8) + (ch ^ (unsigned char)(s >> 24))`, on a 64-bit unsigned long. -/
def subdirAcc : Nat → List Nat → Nat
  | s, [] => s
  | s, ch :: rest => subdirAcc (((s <<< 8) + (ch ^^^ ((s >>> 24) % 256))) % 2 ^ 64) rest

/-- get_subdir_for_id: after the accumulator loop, emit 4 characters
`(s % base) + 'a'` with `s /= base` after each, where
`base = 'z' - 'a' = 25`.  buf[0], the first character, is the
least-significant base-25 digit. -/
def get_subdir_for_id (id : List Nat) : List Nat :=
  let s := subdirAcc 0 id
  [s % 25 + 97, s / 25 % 25 + 97, s / 25 / 25 % 25 + 97, s / 25 / 25 / 25 % 25 + 97]

/-! ## str_join_path (src/src/afilecache.c lines 143-168)

The program only ever calls str_join_path with exactly two components (plus
the NULL terminator), so the varargs loop body runs exactly once; this is
that instance.  A separator is inserted exactly when
`(buffer.len == 0 || buffer.str[buffer.len-1] != '/') && s[0] != '/'`
(for an empty second component, `s[0]` is the NUL byte, which is not `'/'`,
matching `b.head? ≠ some 47` since `head? [] = none`). -/

def str_join_path (a b : List Nat) : List Nat :=
  if (a = [] ∨ a.getLast? ≠ some 47) ∧ b.head? ≠ some 47 then a ++ 47 :: b else a ++ b

/-! ## Result codes (enum RETCODES) -/

def RET_USAGE : Nat := 1
def RET_MISS : Nat := 2
def RET_INTERNAL : Nat := 3
def RET_NO_CACHE_DIR : Nat := 4
def RET_FILE_OPS : Nat := 5
def RET_LOCK : Nat := 6

/-! ## cache_id_to_path (src/src/afilecache.c lines 242-249) -/

/-- The fixed staging file name `".?tmpfile"` used by command_put
(bytes of `.` `?` `t` `m` `p` `f` `i` `l` `e`). -/
def tmpName : List Nat := [46, 63, 116, 109, 112, 102, 105, 108, 101]

/-- `relpath = str_join_path(dirname, filename, 0)`. -/
def cacheRelPath (id : List Nat) : List Nat :=
  str_join_path (get_subdir_for_id id) (encode_id id)

/-- `fullpath = str_join_path(cache_path, relpath, 0)`: the final entry path. -/
def entryFullPath (root id : List Nat) : List Nat :=
  str_join_path root (cacheRelPath id)

/-- `dirfullpath = str_join_path(cache_path, dirname, 0)`: the shard directory. -/
def dirFullPath (root id : List Nat) : List Nat :=
  str_join_path root (get_subdir_for_id id)

/-- `tmpfilename = str_join_path(dirfullpath, ".?tmpfile", 0)`. -/
def tmpFilePath (root id : List Nat) : List Nat :=
  str_join_path (dirFullPath root id) tmpName

/-! ## Filesystem model

Files as an association list from paths to contents.  `fsErase` models
`unlink`, `fsInsert` models creating a file with given content, `renameFs`
models `rename` (atomic replacement of the destination). -/

abbrev Fs := List (List Nat × List Nat)

def fsLookup : Fs → List Nat → Option (List Nat)
  | [], _ => none
  | (q, c) :: rest, p => if q = p then some c else fsLookup rest p

def fsErase : Fs → List Nat → Fs
  | [], _ => []
  | (q, c) :: rest, p => if q = p then fsErase rest p else (q, c) :: fsErase rest p

def fsInsert (fs : Fs) (p c : List Nat) : Fs := (p, c) :: fsErase fs p

def renameFs (fs : Fs) (src dst : List Nat) : Fs :=
  match fsLookup fs src with
  | none => fs
  | some c => fsInsert (fsErase fs src) dst c

/-! ## The copy primitive cp (src/src/afilecache.c lines 13-81)

cp opens the source read-only (failing if it does not exist), opens the
destination with `O_WRONLY | O_CREAT | O_EXCL` (failing if it already
exists), and copies in chunks.  Failure modes beyond the two opens
(malloc failure, a write error other than EINTR, a read error, a close
error) leave a prefix of the source content — possibly all of it, for a
close failure — at the destination without unlinking it.  The outcome of
the environment-dependent steps is an explicit parameter. -/

inductive CpOutcome where
  | ok : CpOutcome
  | openFail : CpOutcome
  | writeIncomplete : Nat → CpOutcome
deriving DecidableEq

/-- Model of `cp(to, from)`: returns the filesystem afterwards and whether
the copy succeeded (`cp == 0`). -/
def cpModel (fs : Fs) (dst src : List Nat) (out : CpOutcome) : Fs × Bool :=
  match fsLookup fs src with
  | none => (fs, false)
  | some content =>
    match fsLookup fs dst with
    | some _ => (fs, false)
    | none =>
      match out with
      | .ok => (fsInsert fs dst content, true)
      | .openFail => (fs, false)
      | .writeIncomplete k => (fsInsert fs dst (content.take k), false)

/-! ## command_put (src/src/afilecache.c lines 251-292) -/

inductive DirStat where
  | missing : DirStat
  | isDir : DirStat
  | notDir : DirStat
deriving DecidableEq

/-- Environment-determined outcomes of the fallible steps of command_put. -/
structure PutEnv where
  dirStat : DirStat
  mkdirOk : Bool
  unlinkTmpFail : Bool
  cpOut : CpOutcome
  renameFail : Bool
deriving DecidableEq

/-- The part of command_put after the shard-directory check: unlink the
stale temp file (ENOENT tolerated), cp the source onto the temp name,
rename the temp name onto the final path.  Returns the trace of filesystem
states (initial state first, final state last) and the exit code. -/
def putCore (fs : Fs) (p tmp src : List Nat) (env : PutEnv) : List Fs × Nat :=
  if env.unlinkTmpFail then ([fs], RET_FILE_OPS)
  else
    let s1 := fsErase fs tmp
    let r := cpModel s1 tmp src env.cpOut
    if r.2 then
      if env.renameFail then ([fs, s1, r.1], RET_FILE_OPS)
      else ([fs, s1, r.1, renameFs r.1 tmp p], 0)
    else ([fs, s1, r.1], RET_FILE_OPS)

/-- command_put: check/create the shard directory (stat and mkdir touch no
files, so they leave the file map unchanged), then run the copy/rename
sequence.  Returns the trace of filesystem states and the exit code. -/
def command_put (fs : Fs) (root id src : List Nat) (env : PutEnv) : List Fs × Nat :=
  let p := entryFullPath root id
  let tmp := tmpFilePath root id
  match env.dirStat with
  | .notDir => ([fs], RET_FILE_OPS)
  | .missing => if env.mkdirOk then putCore fs p tmp src env else ([fs], RET_FILE_OPS)
  | .isDir => putCore fs p tmp src env

/-! ## command_get (src/src/afilecache.c lines 294-319) -/

structure GetEnv where
  unlinkDestFail : Bool
  cpOut : CpOutcome
deriving DecidableEq

/-- command_get: stat the entry path (failure is a miss), unlink the
destination (ENOENT tolerated), cp the entry to the destination, and on a
copy failure best-effort unlink the destination. -/
def command_get (fs : Fs) (root id dest : List Nat) (env : GetEnv) : Fs × Nat :=
  let p := entryFullPath root id
  match fsLookup fs p with
  | none => (fs, RET_MISS)
  | some _ =>
    if env.unlinkDestFail then (fs, RET_FILE_OPS)
    else
      let s1 := fsErase fs dest
      let r := cpModel s1 dest p env.cpOut
      if r.2 then (r.1, 0) else (fsErase r.1 dest, RET_FILE_OPS)

/-! ## command_delete — both copies of the program

src/src/afilecache.c lines 321-333: `if (unlink(...) < 0 && errno != ENOENT)`
fail, otherwise return 0 — so a missing entry (ENOENT) falls through to
`return 0`, success.

src/unnamed/part_000 lines 329-343: on `unlink` failure, ENOENT returns
RET_MISS and anything else RET_FILE_OPS.

`unlinkOtherFail` models unlink failing with an errno other than ENOENT on
an existing entry; unlink of a missing path yields ENOENT. -/

def command_delete (fs : Fs) (root id : List Nat) (unlinkOtherFail : Bool) : Fs × Nat :=
  let p := entryFullPath root id
  match fsLookup fs p with
  | some _ => if unlinkOtherFail then (fs, RET_FILE_OPS) else (fsErase fs p, 0)
  | none => (fs, 0)

def command_delete_unnamed (fs : Fs) (root id : List Nat) (unlinkOtherFail : Bool) : Fs × Nat :=
  let p := entryFullPath root id
  match fsLookup fs p with
  | some _ => if unlinkOtherFail then (fs, RET_FILE_OPS) else (fsErase fs p, 0)
  | none => (fs, RET_MISS)

/-! ## command_clean (src/src/afilecache.c lines 335-339) -/

/-- command_clean prints "Not implemented" and returns RET_INTERNAL; it
performs no filesystem operation. -/
def command_clean (fs : Fs) (_maxSizeMb : Nat) : Fs × Nat := (fs, RET_INTERNAL)

/-! ## Argument handling of main (src/src/afilecache.c lines 361-401)

`argv` is the C argument vector as a list of strings; in C, `argv[argc]`
is the NULL pointer, so reading index `argc` is modelled by `List.get?`
returning `none`, and passing that NULL to `atoi` is the `nullArgRead`
outcome (a NULL-pointer dereference inside `atoi`, undefined behavior —
the process crashes before any exit code is produced). -/

inductive MainOutcome where
  | usageError : MainOutcome
  | nullArgRead : MainOutcome
  | runPut : List Nat → List Nat → List Nat → MainOutcome
  | runGet : List Nat → List Nat → List Nat → MainOutcome
  | runDelete : List Nat → List Nat → MainOutcome
  | runClean : List Nat → List Nat → MainOutcome
deriving DecidableEq

def putWord : List Nat := [112, 117, 116]
def getWord : List Nat := [103, 101, 116]
def deleteWord : List Nat := [100, 101, 108, 101, 116, 101]
def cleanWord : List Nat := [99, 108, 101, 97, 110]

/-- The argument-validation phase of main, up to (but not including) the
cache-directory stat and the lock acquisition. -/
def mainParse (argv : List (List Nat)) : MainOutcome :=
  if argv.length < 3 then .usageError
  else
    let cachePath := argv.getD 1 []
    let command := argv.getD 2 []
    if cachePath = [] ∨ command = [] then .usageError
    else if command = putWord ∨ command = getWord then
      if argv.length = 5 then
        let id := argv.getD 3 []
        let f := argv.getD 4 []
        if f = [] ∨ id = [] then .usageError
        else if command = putWord then .runPut cachePath id f else .runGet cachePath id f
      else .usageError
    else if command = deleteWord then
      if argv.length = 4 then
        let id := argv.getD 3 []
        if id = [] then .usageError else .runDelete cachePath id
      else .usageError
    else if command = cleanWord then
      if argv.length = 4 then
        match argv.get? 4 with
        | none => .nullArgRead
        | some s => .runClean cachePath s
      else .usageError
    else .usageError

/-! ## Lemmas about the filesystem model -/

theorem fsLookup_fsErase_self (fs : Fs) (p : List Nat) : fsLookup (fsErase fs p) p = none := by
  induction fs with
  | nil => rfl
  | cons e rest ih =>
    obtain ⟨q, c⟩ := e
    by_cases h : q = p
    · simp [fsErase, h, ih]
    · simp [fsErase, fsLookup, h, ih]

theorem fsLookup_fsErase_ne {p q : List Nat} (fs : Fs) (h : p ≠ q) :
    fsLookup (fsErase fs q) p = fsLookup fs p := by
  induction fs with
  | nil => rfl
  | cons e rest ih =>
    obtain ⟨r, c⟩ := e
    rw [fsErase]
    by_cases hr : r = q
    · subst hr
      rw [if_pos rfl, fsLookup, if_neg (fun e => h e.symm)]
      exact ih
    · rw [if_neg hr, fsLookup, fsLookup]
      by_cases hp : r = p
      · rw [if_pos hp, if_pos hp]
      · rw [if_neg hp, if_neg hp]
        exact ih

theorem fsLookup_fsInsert_self (fs : Fs) (p c : List Nat) :
    fsLookup (fsInsert fs p c) p = some c := by
  simp [fsInsert, fsLookup]

theorem fsLookup_fsInsert_ne {p q : List Nat} (fs : Fs) (c : List Nat) (h : p ≠ q) :
    fsLookup (fsInsert fs q c) p = fsLookup fs p := by
  have hq : q ≠ p := fun e => h e.symm
  simp [fsInsert, fsLookup, hq, fsLookup_fsErase_ne fs h]

/-! ## Lemmas about the encoder -/

theorem mem_decDigitsAux {fuel n d : Nat} (h : d ∈ decDigitsAux fuel n) :
    48 ≤ d ∧ d ≤ 57 := by
  induction fuel generalizing n with
  | zero => simp [decDigitsAux] at h
  | succ f ih =>
    rw [decDigitsAux] at h
    split at h
    · next hn => simp at h; omega
    · rw [List.mem_append] at h
      rcases h with h | h
      · exact ih h
      · have : n % 10 < 10 := Nat.mod_lt _ (by omega)
        simp at h; omega

theorem mem_encByte {b d : Nat} (h : d ∈ encByte b) :
    d = 37 ∨ (48 ≤ d ∧ d ≤ 57) ∨ (d = b ∧ isEscapedChar b = false) := by
  unfold encByte at h
  split at h
  · next hesc =>
    have h2 : d ∈ 37 :: decDigits (cUnsignedOfByte b) := List.take_subset _ _ h
    rcases List.mem_cons.mp h2 with h3 | h3
    · exact Or.inl h3
    · exact Or.inr (Or.inl (mem_decDigitsAux h3))
  · next hesc =>
    simp at h
    exact Or.inr (Or.inr ⟨h, Bool.of_not_eq_true hesc⟩)

theorem encode_id_not_mem_63 (id : List Nat) : 63 ∉ encode_id id := by
  induction id with
  | nil => simp [encode_id]
  | cons b rest ih =>
    rw [encode_id, List.mem_append]
    rintro (h | h)
    · rcases mem_encByte h with h1 | h1 | ⟨h1, h2⟩
      · omega
      · omega
      · subst h1
        exact absurd h2 (by decide)
    · exact ih h

theorem encByte_ne_nil (b : Nat) : encByte b ≠ [] := by
  unfold encByte
  split
  · simp [cEscape, List.take_succ_cons]
  · simp

theorem encByte_head_ne_47 (b : Nat) : (encByte b).head? ≠ some 47 := by
  unfold encByte
  split
  · next hesc =>
    simp [cEscape, List.take_succ_cons]
  · next hesc =>
    simp only [List.head?_cons, ne_eq, Option.some.injEq]
    rintro rfl
    exact absurd hesc (by decide)

theorem encode_id_head_ne_47 (id : List Nat) : (encode_id id).head? ≠ some 47 := by
  cases id with
  | nil => simp [encode_id]
  | cons b rest =>
    rw [encode_id]
    cases hE : encByte b with
    | nil => exact absurd hE (encByte_ne_nil b)
    | cons x xs =>
      have hx := encByte_head_ne_47 b
      rw [hE] at hx
      simpa using hx

/-! ## Lemmas about the shard router -/

theorem get_subdir_eq (id : List Nat) :
    get_subdir_for_id id =
      [subdirAcc 0 id % 25 + 97, subdirAcc 0 id / 25 % 25 + 97,
       subdirAcc 0 id / 25 / 25 % 25 + 97, subdirAcc 0 id / 25 / 25 / 25 % 25 + 97] := rfl

theorem get_subdir_ne_nil (id : List Nat) : get_subdir_for_id id ≠ [] := by
  rw [get_subdir_eq]; simp

theorem get_subdir_head_ne_47 (id : List Nat) :
    (get_subdir_for_id id).head? ≠ some 47 := by
  rw [get_subdir_eq]
  simp only [List.head?_cons, ne_eq, Option.some.injEq]
  omega

theorem get_subdir_getLast_ne_47 (id : List Nat) :
    (get_subdir_for_id id).getLast? ≠ some 47 := by
  rw [get_subdir_eq]
  have : ([subdirAcc 0 id % 25 + 97, subdirAcc 0 id / 25 % 25 + 97,
      subdirAcc 0 id / 25 / 25 % 25 + 97, subdirAcc 0 id / 25 / 25 / 25 % 25 + 97]).getLast?
      = some (subdirAcc 0 id / 25 / 25 / 25 % 25 + 97) := rfl
  rw [this]
  simp only [ne_eq, Option.some.injEq]
  omega

/-! ## Lemmas about path joining -/

theorem str_join_path_sep {a b : List Nat} (ha : a = [] ∨ a.getLast? ≠ some 47)
    (hb : b.head? ≠ some 47) : str_join_path a b = a ++ 47 :: b := by
  unfold str_join_path
  exact if_pos ⟨ha, hb⟩

/-- The cache root as it appears as a prefix of every joined path: the root
itself, with a separator appended exactly when its last byte is not already
a separator (or it is empty). -/
def rootPre (root : List Nat) : List Nat :=
  if root = [] ∨ root.getLast? ≠ some 47 then root ++ [47] else root

theorem str_join_path_root {b : List Nat} (a : List Nat) (hb : b.head? ≠ some 47) :
    str_join_path a b = rootPre a ++ b := by
  rw [rootPre]
  by_cases hc : a = [] ∨ a.getLast? ≠ some 47
  · rw [str_join_path_sep hc hb, if_pos hc, List.append_assoc]
    rfl
  · rw [if_neg hc]
    unfold str_join_path
    exact if_neg (fun hh => hc hh.1)

theorem entryFullPath_eq (root id : List Nat) :
    entryFullPath root id = rootPre root ++ (get_subdir_for_id id ++ 47 :: encode_id id) := by
  have hrel : cacheRelPath id = get_subdir_for_id id ++ 47 :: encode_id id :=
    str_join_path_sep (Or.inr (get_subdir_getLast_ne_47 id)) (encode_id_head_ne_47 id)
  have hrelhead : (cacheRelPath id).head? ≠ some 47 := by
    rw [hrel]
    cases hS : get_subdir_for_id id with
    | nil => exact absurd hS (get_subdir_ne_nil id)
    | cons x xs =>
      have hx := get_subdir_head_ne_47 id
      rw [hS] at hx
      simpa using hx
  rw [entryFullPath, str_join_path_root root hrelhead, hrel]

theorem tmpFilePath_eq (root id : List Nat) :
    tmpFilePath root id = rootPre root ++ (get_subdir_for_id id ++ 47 :: tmpName) := by
  have hdir : dirFullPath root id = rootPre root ++ get_subdir_for_id id := by
    rw [dirFullPath, str_join_path_root root (get_subdir_head_ne_47 id)]
  have hlast : (dirFullPath root id).getLast? ≠ some 47 := by
    rw [hdir, List.getLast?_append_of_ne_nil _ (get_subdir_ne_nil id)]
    exact get_subdir_getLast_ne_47 id
  rw [tmpFilePath, str_join_path_sep (Or.inr hlast) (by decide), hdir, List.append_assoc]

theorem get_subdir_length (id : List Nat) : (get_subdir_for_id id).length = 4 := by
  rw [get_subdir_eq]
  rfl

/-- The temp-file path of any put never coincides with the entry path of any
identifier (same shard or not): shard names have fixed length 4, and the
encoded identifier in the last component cannot contain the byte 63
(a question mark) while the staging name does. -/
theorem tmpFilePath_ne_entryFullPath (root id1 id2 : List Nat) :
    tmpFilePath root id1 ≠ entryFullPath root id2 := by
  rw [tmpFilePath_eq, entryFullPath_eq]
  intro h
  have h2 := List.append_cancel_left h
  have h3 := List.append_inj h2 (by rw [get_subdir_length, get_subdir_length])
  have h4 : tmpName = encode_id id2 := by
    have := h3.2
    injection this
  have h5 : (63 : Nat) ∈ encode_id id2 := by rw [← h4]; decide
  exact encode_id_not_mem_63 id2 h5

/-- The final entry path and the temp-file path of one put never coincide. -/
theorem entryFullPath_ne_tmpFilePath (root id : List Nat) :
    entryFullPath root id ≠ tmpFilePath root id :=
  fun h => tmpFilePath_ne_entryFullPath root id id h.symm

/-! ## Byte-level characterization of encByte -/

theorem encByte_low : ∀ b < 32, encByte b = 37 :: decDigits b := by decide

set_option maxRecDepth 4096 in
theorem encByte_high : ∀ b < 256, 128 ≤ b → encByte b = [37, 52, 50, 57] := by decide

theorem reservedByte_cases {b : Nat} (h : reservedByte b = true) :
    (((((b = 42 ∨ b = 63) ∨ b = 47) ∨ b = 92) ∨ b = 34) ∨ b = 39) ∨ b = 37 := by
  simpa [reservedByte, Bool.or_eq_true, beq_iff_eq] using h

theorem encByte_reserved {b : Nat} (h : reservedByte b = true) :
    encByte b = 37 :: decDigits b := by
  rcases reservedByte_cases h with (((((rfl | rfl) | rfl) | rfl) | rfl) | rfl) | rfl <;> decide

theorem encByte_reserved_digits {b : Nat} (h : reservedByte b = true) :
    encByte b = [37, 48 + b / 10, 48 + b % 10] := by
  rcases reservedByte_cases h with (((((rfl | rfl) | rfl) | rfl) | rfl) | rfl) | rfl <;> decide

theorem encByte_safe {b : Nat} (h1 : 32 ≤ b) (h2 : b ≤ 127) (h3 : reservedByte b = false) :
    encByte b = [b] := by
  have hesc : isEscapedChar b = false := by
    unfold isEscapedChar
    rw [h3]
    simp only [Bool.or_false, Bool.or_eq_false_iff, decide_eq_false_iff_not]
    omega
  simp [encByte, hesc]

/-! ## Claim C3 — the shard algorithm as the spec words it -/

/-- The Shard Router algorithm exactly as claim C3 states it: a 64-bit
accumulator, each byte XORed with the TOP 8 bits of the accumulator
(bits 56..63), then the accumulator is shifted left by 8 and the XOR result
added; finally 4 base-25 letter digits, least significant first. -/
def shardClaim (id : List Nat) : List Nat :=
  let s := id.foldl (fun s ch => ((s <<< 8) + (ch ^^^ (s >>> 56))) % 2 ^ 64) 0
  (List.range 4).map (fun i => s / 25 ^ i % 25 + 97)

/-- The shard algorithm as amended: identical to claim C3 except the byte is
XORed with bits 24..31 of the accumulator (the top 8 bits of its low 32
bits), which is what `(unsigned char)(s >> 24)` extracts. -/
def shardAmended (id : List Nat) : List Nat :=
  let s := id.foldl (fun s ch => ((s <<< 8) + (ch ^^^ ((s >>> 24) % 256))) % 2 ^ 64) 0
  (List.range 4).map (fun i => s / 25 ^ i % 25 + 97)

theorem foldl_subdirAcc (id : List Nat) : ∀ s : Nat,
    id.foldl (fun s ch => ((s <<< 8) + (ch ^^^ ((s >>> 24) % 256))) % 2 ^ 64) s
      = subdirAcc s id := by
  induction id with
  | nil => intro s; rfl
  | cons ch rest ih =>
    intro s
    rw [List.foldl_cons, subdirAcc]
    exact ih _

/-- C3, counterexample: on the 5-byte identifier "aaaaa" the code's shard
name ("nejs") differs from the shard name computed by the claim's
"top 8 bits of the (64-bit) accumulator" algorithm ("kijs"), because the
code XORs with bits 24..31 (`s >> 24` cast to unsigned char), not with the
top 8 bits (bits 56..63) of the 64-bit accumulator. -/
theorem c3_shard_claim_counterexample :
    get_subdir_for_id [97, 97, 97, 97, 97] ≠ shardClaim [97, 97, 97, 97, 97] ∧
    get_subdir_for_id [97, 97, 97, 97, 97] = [110, 101, 106, 115] ∧
    shardClaim [97, 97, 97, 97, 97] = [107, 105, 106, 115] := by
  refine ⟨by decide, by decide, by decide⟩

/-- C3, amended: for every identifier the shard name of get_subdir_for_id
is computed by the claimed algorithm with one change — each byte is XORed
with bits 24..31 of the 64-bit accumulator (the top 8 bits of its low 32
bits) instead of the accumulator's top 8 bits; everything else (64-bit
wrap-around, 4 base-25 letter digits, least-significant digit first,
letters a..y) is exactly as claimed. -/
theorem c3_shard_bits_24_31 (id : List Nat) :
    get_subdir_for_id id = shardAmended id := by
  unfold shardAmended
  rw [foldl_subdirAcc, get_subdir_eq]
  have hr : List.range 4 = [0, 1, 2, 3] := rfl
  rw [hr]
  simp only [List.map]
  norm_num [Nat.div_div_eq_div_mul]

/-! ## Claim C4 — per-byte behavior of the encoder -/

/-- The Identifier Encoder exactly as claim C4 states it: a byte passes
through unchanged unless its value is below 32 or it is one of the reserved
characters, and each escaped byte becomes a percent sign followed by its
full decimal value with no truncation, for all byte values including those
at or above 128. -/
def encodeClaimC4 : List Nat → List Nat
  | [] => []
  | b :: rest =>
      (if b < 32 ∨ reservedByte b = true then 37 :: decDigits b else [b]) ++ encodeClaimC4 rest

/-- C4, counterexample: on the byte 200 the code does not pass the byte
through (200 is not below 32 and is not reserved, so the claim requires
pass-through): `char` is signed on the target, so byte 200 is negative,
satisfies `ch < ' '`, and is escaped; moreover `(unsigned)ch` sign-extends
to 4294967240 and `snprintf(esc, 5, ...)` truncates the escape to the four
characters `%429` — not the byte's full decimal value. -/
theorem c4_encode_claim_counterexample :
    encode_id [200] ≠ encodeClaimC4 [200] ∧
    encodeClaimC4 [200] = [200] ∧
    encode_id [200] = [37, 52, 50, 57] := by
  refine ⟨by decide, by decide, by decide⟩

/-- C4, amended: for every identifier byte (a C-string byte, 1..255), bytes
below 32 and the reserved characters are replaced by a percent sign followed
by the byte's full decimal value (no zero-padding, no fixed width, no
truncation); other bytes up to 127 pass through unchanged; and every byte at
or above 128 is also escaped (it is negative as a signed char, hence tests
below the space character) with its escape truncated by the 5-byte snprintf
buffer to `%429` — the percent sign and the first three digits of the
sign-extended 32-bit value. -/
theorem c4_encode_byte_amended (b : Nat) (rest : List Nat) (h1 : 1 ≤ b) (h2 : b ≤ 255) :
    encode_id (b :: rest) =
      (if b < 32 ∨ reservedByte b = true then 37 :: decDigits b
       else if b ≤ 127 then [b]
       else [37, 52, 50, 57]) ++ encode_id rest := by
  rw [encode_id]
  congr 1
  by_cases hb : b < 32 ∨ reservedByte b = true
  · rw [if_pos hb]
    rcases hb with hb | hb
    · exact encByte_low b hb
    · exact encByte_reserved hb
  · rw [if_neg hb]
    have hb1 : ¬ b < 32 := fun hc => hb (Or.inl hc)
    have hb2 : reservedByte b = false := by
      cases hr : reservedByte b
      · rfl
      · exact absurd (Or.inr hr) hb
    by_cases hc : b ≤ 127
    · rw [if_pos hc]
      exact encByte_safe (by omega) hc hb2
    · rw [if_neg hc]
      exact encByte_high b (by omega) (by omega)

theorem c4_encode_byte_amended_witness :
    encode_id (200 :: [97]) =
      (if (200 : Nat) < 32 ∨ reservedByte 200 = true then 37 :: decDigits 200
       else if (200 : Nat) ≤ 127 then [200]
       else [37, 52, 50, 57]) ++ encode_id [97] :=
  c4_encode_byte_amended 200 [97] (by decide) (by decide)

/-! ## Claim C5 — injectivity of the encoder -/

/-- C5, counterexample: the encoder is not injective on arbitrary
identifiers.  The identifier consisting of byte 1 followed by the digit 2
(byte 50) encodes to `%1` `2`, and the identifier consisting of the single
byte 12 encodes to `%12` — the same three bytes `%12`. -/
theorem c5_encode_not_injective :
    encode_id [1, 50] = encode_id [12] ∧ ([1, 50] : List Nat) ≠ [12] := by
  refine ⟨by decide, by decide⟩

/-- C5, amended: the encoder is injective on identifiers made of non-control
ASCII bytes (32..127): for two distinct such identifiers the encoded
filenames are distinct.  (On arbitrary bytes it is not injective: a control
escape such as `%1` followed by a literal digit collides with a longer
control escape, and all bytes at or above 128 share the single truncated
escape `%429`.) -/
theorem c5_encode_injective_ascii :
    ∀ xs ys : List Nat, (∀ b ∈ xs, 32 ≤ b ∧ b ≤ 127) → (∀ b ∈ ys, 32 ≤ b ∧ b ≤ 127) →
      encode_id xs = encode_id ys → xs = ys := by
  intro xs
  induction xs with
  | nil =>
    intro ys _ _ h
    cases ys with
    | nil => rfl
    | cons b ys' =>
      rw [encode_id, encode_id] at h
      exact absurd (List.append_eq_nil.mp h.symm).1 (encByte_ne_nil b)
  | cons a xs' ih =>
    intro ys hx hy h
    cases ys with
    | nil =>
      rw [encode_id, encode_id] at h
      exact absurd (List.append_eq_nil.mp h).1 (encByte_ne_nil a)
    | cons b ys' =>
      have ha := hx a (List.mem_cons_self a xs')
      have hb := hy b (List.mem_cons_self b ys')
      have hx' : ∀ c ∈ xs', 32 ≤ c ∧ c ≤ 127 := fun c hc => hx c (List.mem_cons_of_mem a hc)
      have hy' : ∀ c ∈ ys', 32 ≤ c ∧ c ≤ 127 := fun c hc => hy c (List.mem_cons_of_mem b hc)
      rw [encode_id, encode_id] at h
      by_cases hra : reservedByte a = true
      · by_cases hrb : reservedByte b = true
        · rw [encByte_reserved_digits hra, encByte_reserved_digits hrb] at h
          simp only [List.cons_append, List.cons.injEq] at h
          obtain ⟨-, h1, h2, h3⟩ := h
          have hab : a = b := by omega
          subst hab
          rw [ih ys' hx' hy' h3]
        · have hrb' : reservedByte b = false := by
            cases hr : reservedByte b
            · rfl
            · exact absurd hr hrb
          rw [encByte_reserved_digits hra, encByte_safe hb.1 hb.2 hrb'] at h
          simp only [List.cons_append, List.cons.injEq] at h
          obtain ⟨h1, -⟩ := h
          rw [← h1] at hrb
          exact absurd (by decide : reservedByte 37 = true) hrb
      · have hra' : reservedByte a = false := by
          cases hr : reservedByte a
          · rfl
          · exact absurd hr hra
        by_cases hrb : reservedByte b = true
        · rw [encByte_safe ha.1 ha.2 hra', encByte_reserved_digits hrb] at h
          simp only [List.cons_append, List.cons.injEq] at h
          obtain ⟨h1, -⟩ := h
          rw [h1] at hra
          exact absurd (by decide : reservedByte 37 = true) hra
        · have hrb' : reservedByte b = false := by
            cases hr : reservedByte b
            · rfl
            · exact absurd hr hrb
          rw [encByte_safe ha.1 ha.2 hra', encByte_safe hb.1 hb.2 hrb'] at h
          simp only [List.cons_append, List.cons.injEq] at h
          obtain ⟨h1, h2⟩ := h
          subst h1
          rw [ih ys' hx' hy' h2]

theorem c5_encode_injective_ascii_witness : ([104, 105] : List Nat) = [104, 105] :=
  c5_encode_injective_ascii [104, 105] [104, 105] (by decide) (by decide) rfl

/-! ## Claim C6 — separators inserted by str_join_path -/

/-- C6, counterexample: joining the component `a` carrying a trailing
separator with the component `b` carrying a leading separator yields
`a//b` — two separator bytes between the components, not exactly one. -/
theorem c6_join_double_separator :
    str_join_path ([97] ++ [47]) ([47] ++ [98]) = [97, 47, 47, 98] ∧
    str_join_path ([97] ++ [47]) ([47] ++ [98]) ≠ [97] ++ 47 :: [98] := by
  refine ⟨by decide, by decide⟩

/-- C6, amended: for non-empty separator-free components, the joined result
has exactly one separator between the components in three of the four
trailing/leading combinations; when the left component ends with a
separator AND the right component begins with one, both are kept and the
result has exactly two separators between the components. -/
theorem c6_join_separator_count (a b : List Nat) (ta tb : Bool)
    (ha : a ≠ []) (hb : b ≠ []) (ha47 : 47 ∉ a) (hb47 : 47 ∉ b) :
    str_join_path (a ++ if ta then [47] else []) ((if tb then [47] else []) ++ b)
      = a ++ (if ta && tb then [47, 47] else [47]) ++ b := by
  have haL : a.getLast? ≠ some 47 := by
    intro hL
    cases a with
    | nil => exact ha rfl
    | cons x xs =>
      have : (47 : Nat) ∈ x :: xs := by
        have h1 : (x :: xs).getLast (List.cons_ne_nil x xs) = 47 := by
          have h2 := List.getLast?_eq_getLast (x :: xs) (List.cons_ne_nil x xs)
          rw [h2] at hL
          injection hL
        rw [← h1]
        exact List.getLast_mem _
      exact ha47 this
  have hbH : b.head? ≠ some 47 := by
    intro hH
    cases b with
    | nil => exact hb rfl
    | cons x xs =>
      rw [List.head?_cons] at hH
      injection hH with hx
      exact hb47 (hx ▸ List.mem_cons_self x xs)
  cases ta <;> cases tb
  · have h1 : str_join_path a b = a ++ 47 :: b := str_join_path_sep (Or.inr haL) hbH
    simp [h1, List.append_assoc]
  · have h1 : str_join_path a (47 :: b) = a ++ 47 :: b := by
      unfold str_join_path
      exact if_neg (fun hh => hh.2 rfl)
    simp [h1, List.append_assoc]
  · have h1 : str_join_path (a ++ [47]) b = (a ++ [47]) ++ b := by
      unfold str_join_path
      refine if_neg (fun hh => ?_)
      rcases hh.1 with h1 | h1
      · exact absurd h1 (by simp)
      · exact h1 (List.getLast?_concat a)
    simp [h1, List.append_assoc]
  · have h1 : str_join_path (a ++ [47]) (47 :: b) = (a ++ [47]) ++ 47 :: b := by
      unfold str_join_path
      exact if_neg (fun hh => hh.2 rfl)
    simp [h1, List.append_assoc]

theorem c6_join_separator_count_witness :
    str_join_path ([97] ++ [47]) ([47] ++ [98])
      = [97] ++ (if true && true then [47, 47] else [47]) ++ [98] :=
  c6_join_separator_count [97] [98] true true (by decide) (by decide) (by decide) (by decide)

/-! ## Claim C7 — the encoder is not idempotent -/

/-- C7: there is an identifier containing a literal percent sign (byte 37)
whose encoded form, encoded again, differs from the encoded form: the
percent sign introduced by escaping is itself re-escaped. -/
theorem c7_encode_not_idempotent :
    ∃ id : List Nat, 37 ∈ id ∧ encode_id (encode_id id) ≠ encode_id id :=
  ⟨[37], by decide, by decide⟩

/-! ## Claim C10 — the staging name never collides with an encoded entry -/

/-- C10: no encoded identifier contains a literal question mark (byte 63,
always escaped), so no encoded filename equals the fixed staging name
`.?tmpfile`; consequently the temp-file path used by put never equals the
entry path of any stored identifier — in the same shard or any other. -/
theorem c10_tmp_staging_never_collides (root id1 id2 : List Nat) :
    63 ∉ encode_id id2 ∧ encode_id id2 ≠ tmpName ∧
    tmpFilePath root id1 ≠ entryFullPath root id2 := by
  refine ⟨encode_id_not_mem_63 id2, ?_, tmpFilePath_ne_entryFullPath root id1 id2⟩
  intro h
  exact encode_id_not_mem_63 id2 (h ▸ (by decide : (63 : Nat) ∈ tmpName))

/-! ## Claim C1 — delete of a missing entry -/

/-- C1: on a missing entry, the command_delete of src/src/afilecache.c
returns 0 (success) — `unlink` fails with ENOENT and the
`errno != ENOENT` guard makes the function fall through to `return 0` —
while the command_delete of src/unnamed/part_000 (whose usage text
documents "If <ID> is missing in the cache, exits with code 2") returns
RET_MISS, and returns RET_MISS again on the second delete of the same
missing identifier. -/
theorem c1_delete_missing_entry_divergence :
    (command_delete [] [47, 99] [107] false).2 = 0 ∧
    (command_delete_unnamed [] [47, 99] [107] false).2 = RET_MISS ∧
    (command_delete_unnamed
        (command_delete_unnamed [] [47, 99] [107] false).1 [47, 99] [107] false).2
      = RET_MISS := by
  refine ⟨by decide, by decide, by decide⟩

/-! ## Claim C8 — the clean command -/

/-- C8: a well-formed clean invocation
(`afilecache /c clean 100`, argc = 4) never reaches command_clean:
main runs `max_size_mb = atoi(argv[4])`, and `argv[4]` is the NULL
terminator of the argument vector when argc is 4, so the program
dereferences NULL inside atoi (undefined behavior, a crash) before the
stat, the lock and the dispatch — the internal-error result of
command_clean (which would return RET_INTERNAL with no cache mutation)
is never produced. -/
theorem c8_clean_reads_null_argv :
    mainParse [[97], [47, 99], cleanWord, [49, 48, 48]] = MainOutcome.nullArgRead ∧
    command_clean [] 100 = ([], RET_INTERNAL) := by
  refine ⟨by decide, by decide⟩

/-! ## Claim C9 — get of a missing entry -/

/-- C9: when no entry exists at the resolved entry path, command_get
returns RET_MISS (exit code 2), a code distinct from success and from every
other failure code, and leaves the filesystem — in particular the
destination path — completely untouched. -/
theorem c9_get_miss (fs : Fs) (root id dest : List Nat) (env : GetEnv)
    (h : fsLookup fs (entryFullPath root id) = none) :
    command_get fs root id dest env = (fs, RET_MISS) ∧
    RET_MISS ≠ 0 ∧ RET_MISS ≠ RET_USAGE ∧ RET_MISS ≠ RET_INTERNAL ∧
    RET_MISS ≠ RET_NO_CACHE_DIR ∧ RET_MISS ≠ RET_FILE_OPS ∧ RET_MISS ≠ RET_LOCK := by
  refine ⟨?_, by decide, by decide, by decide, by decide, by decide, by decide⟩
  simp only [command_get]
  rw [h]

theorem c9_get_miss_witness :
    command_get [] [47, 99] [107] [111] ⟨false, CpOutcome.ok⟩ = ([], RET_MISS) ∧
    RET_MISS ≠ 0 ∧ RET_MISS ≠ RET_USAGE ∧ RET_MISS ≠ RET_INTERNAL ∧
    RET_MISS ≠ RET_NO_CACHE_DIR ∧ RET_MISS ≠ RET_FILE_OPS ∧ RET_MISS ≠ RET_LOCK :=
  c9_get_miss [] [47, 99] [107] [111] ⟨false, CpOutcome.ok⟩ (by decide)

/-! ## Claim C2 — the final entry path changes only at the rename -/

/-- putCore produces one of three result shapes: an immediate failure with
the filesystem untouched; a failure after the stale-temp unlink, with the
third state either the erased state itself or the erased state with some
content at the temp name; or full success, ending in the rename of the
fully copied content onto the final path. -/
theorem putCore_spec (fs : Fs) (p tmp src : List Nat) (env : PutEnv) :
    putCore fs p tmp src env = ([fs], RET_FILE_OPS)
    ∨ (∃ s2 : Fs, putCore fs p tmp src env = ([fs, fsErase fs tmp, s2], RET_FILE_OPS)
        ∧ (s2 = fsErase fs tmp ∨ ∃ d, s2 = fsInsert (fsErase fs tmp) tmp d))
    ∨ (∃ c, fsLookup (fsErase fs tmp) src = some c ∧
        putCore fs p tmp src env =
          ([fs, fsErase fs tmp, fsInsert (fsErase fs tmp) tmp c,
            renameFs (fsInsert (fsErase fs tmp) tmp c) tmp p], 0)) := by
  obtain ⟨ds, mk, uf, cpo, rf⟩ := env
  cases uf
  · cases hsrc : fsLookup (fsErase fs tmp) src with
    | none =>
      refine Or.inr (Or.inl ⟨fsErase fs tmp, ?_, Or.inl rfl⟩)
      simp [putCore, cpModel, hsrc]
    | some c =>
      have hdst : fsLookup (fsErase fs tmp) tmp = none := fsLookup_fsErase_self fs tmp
      cases cpo with
      | ok =>
        cases rf
        · refine Or.inr (Or.inr ⟨c, rfl, ?_⟩)
          simp [putCore, cpModel, hsrc, hdst]
        · refine Or.inr (Or.inl ⟨fsInsert (fsErase fs tmp) tmp c, ?_, Or.inr ⟨c, rfl⟩⟩)
          simp [putCore, cpModel, hsrc, hdst]
      | openFail =>
        refine Or.inr (Or.inl ⟨fsErase fs tmp, ?_, Or.inl rfl⟩)
        simp [putCore, cpModel, hsrc, hdst]
      | writeIncomplete k =>
        refine Or.inr (Or.inl ⟨fsInsert (fsErase fs tmp) tmp (c.take k), ?_,
          Or.inr ⟨c.take k, rfl⟩⟩)
        simp [putCore, cpModel, hsrc, hdst]
  · exact Or.inl rfl

/-- command_put either fails before touching any file (directory check or
mkdir failure) or runs putCore on the resolved entry and temp paths. -/
theorem command_put_spec (fs : Fs) (root id src : List Nat) (env : PutEnv) :
    command_put fs root id src env = ([fs], RET_FILE_OPS) ∨
    command_put fs root id src env
      = putCore fs (entryFullPath root id) (tmpFilePath root id) src env := by
  obtain ⟨ds, mk, uf, cpo, rf⟩ := env
  cases ds
  · cases mk
    · exact Or.inl rfl
    · exact Or.inr rfl
  · exact Or.inr rfl
  · exact Or.inl rfl

/-- C2: throughout every execution of command_put — whatever the outcomes
of the directory check, mkdir, the stale-temp unlink, the copy, and the
rename — the content stored at the final entry path (or its absence) is
unchanged in every state before the last; every failing execution leaves it
unchanged in the final state as well; and in a successful execution the
final state holds exactly the source file's content at the final entry
path.  A partial copy is thus only ever visible under the temp name (which
never equals the final entry path), never under the final name. -/
theorem c2_put_entry_changed_only_by_rename (fs : Fs) (root id src : List Nat)
    (env : PutEnv) :
    (∀ s ∈ (command_put fs root id src env).1.dropLast,
        fsLookup s (entryFullPath root id) = fsLookup fs (entryFullPath root id)) ∧
    ((command_put fs root id src env).2 ≠ 0 →
      ∀ s ∈ (command_put fs root id src env).1,
        fsLookup s (entryFullPath root id) = fsLookup fs (entryFullPath root id)) ∧
    ((command_put fs root id src env).2 = 0 →
      fsLookup ((command_put fs root id src env).1.getLastD fs) (entryFullPath root id)
        = fsLookup fs src) := by
  have hpt : entryFullPath root id ≠ tmpFilePath root id :=
    entryFullPath_ne_tmpFilePath root id
  set p := entryFullPath root id with hp
  set tmp := tmpFilePath root id with htmp
  rcases command_put_spec fs root id src env with hcp | hcp
  · rw [hcp]
    refine ⟨?_, ?_, ?_⟩
    · intro s hs
      simp at hs
    · intro _ s hs
      simp at hs
      subst hs
      rfl
    · intro hc
      simp [RET_FILE_OPS] at hc
  · rw [hcp]
    have hs1 : fsLookup (fsErase fs tmp) p = fsLookup fs p := fsLookup_fsErase_ne fs hpt
    rcases putCore_spec fs p tmp src env with h | ⟨s2, h, hs2⟩ | ⟨c, hsrc, h⟩
    · rw [h]
      refine ⟨?_, ?_, ?_⟩
      · intro s hs
        simp at hs
      · intro _ s hs
        simp at hs
        subst hs
        rfl
      · intro hc
        simp [RET_FILE_OPS] at hc
    · rw [h]
      have hs2p : fsLookup s2 p = fsLookup fs p := by
        rcases hs2 with rfl | ⟨d, rfl⟩
        · exact hs1
        · rw [fsLookup_fsInsert_ne _ _ hpt]
          exact hs1
      refine ⟨?_, ?_, ?_⟩
      · intro s hs
        have hdl : ([fs, fsErase fs tmp, s2]).dropLast = [fs, fsErase fs tmp] := rfl
        rw [hdl] at hs
        simp at hs
        rcases hs with rfl | rfl
        · rfl
        · exact hs1
      · intro _ s hs
        simp at hs
        rcases hs with rfl | rfl | rfl
        · rfl
        · exact hs1
        · exact hs2p
      · intro hc
        simp [RET_FILE_OPS] at hc
    · rw [h]
      have hst : src ≠ tmp := by
        rintro rfl
        rw [fsLookup_fsErase_self] at hsrc
        exact Option.noConfusion hsrc
      have hsrcfs : fsLookup fs src = some c := by
        rw [← fsLookup_fsErase_ne fs hst]
        exact hsrc
      refine ⟨?_, ?_, ?_⟩
      · intro s hs
        have hdl : ([fs, fsErase fs tmp, fsInsert (fsErase fs tmp) tmp c,
            renameFs (fsInsert (fsErase fs tmp) tmp c) tmp p]).dropLast
            = [fs, fsErase fs tmp, fsInsert (fsErase fs tmp) tmp c] := rfl
        rw [hdl] at hs
        simp at hs
        rcases hs with rfl | rfl | rfl
        · rfl
        · exact hs1
        · rw [fsLookup_fsInsert_ne _ _ hpt]
          exact hs1
      · intro hc
        exact absurd rfl hc
      · intro _
        have hgl : ([fs, fsErase fs tmp, fsInsert (fsErase fs tmp) tmp c,
            renameFs (fsInsert (fsErase fs tmp) tmp c) tmp p]).getLastD fs
            = renameFs (fsInsert (fsErase fs tmp) tmp c) tmp p := rfl
        rw [hgl]
        simp only [renameFs, fsLookup_fsInsert_self]
        rw [hsrcfs]

end Afilecache
